import Mathlib

/-!
Verification of the NeuroFeed feed-ingestion pipeline (`src/core/rss_parser.py`,
class `RssParser`) against its natural-language specification.

Shallow embedding conventions:
* Python strings are `String` (a structure over `List Char` in this Lean version);
  most text processing is defined on `List Char` and wrapped at the boundary.
* Python `None`-able values are `Option _`; Python string truthiness
  (`if s:` is false for `None` and `""`) is `pyTruthyS`.
* External collaborators (the article store `NewsDBManager`, the `hashlib.md5`
  digest, the BeautifulSoup HTML-to-text capability, the WeChat source parser,
  the ambient local timezone and clock) are fields of an `Env` record: the
  pipeline is a pure function of the environment, which is exactly the
  determinism the source exhibits for fixed collaborator behaviour.
* Python exceptions are `Except Exn _`; the store's `add_news_article` may
  throw, and the top-level `try/except` of `fetch_feed` (lines 152/435-446)
  is the `fetch_feed` / `fetch_feed_body` split below.
* `datetime` values are `PyDateTime`: a wall-clock reading in minutes on an
  arbitrary linear scale together with an optional UTC-offset (in minutes,
  `none` = naive).  `astimezone` preserves the instant `wall - offset`.
-/

namespace NeuroFeed

/-- Python string truthiness for an optional string: `None` and `""` are falsy. -/
def pyTruthyS : Option String → Bool
  | none => false
  | some s => !(s == "")

/-- A Python exception value: its class name and its message (`str(e)`). -/
structure Exn where
  className : String
  message : String
  deriving DecidableEq, Repr

/-- A `datetime` value: wall-clock minutes on a linear scale, plus the
attached UTC offset in minutes (`none` = naive, no `tzinfo`). -/
structure PyDateTime where
  wall : Int
  off : Option Int
  deriving DecidableEq, Repr

/-- `RssParser._convert_to_local_time` (lines 74-99), with the ambient local
timezone abstracted as its UTC offset `localOff` (minutes).
`None` is returned unchanged; an aware datetime is converted to the local
zone preserving the instant; a naive datetime first gets UTC attached
(`dt.replace(tzinfo=pytz.UTC)`, line 98) and is then converted. -/
def convert_to_local_time (localOff : Int) : Option PyDateTime → Option PyDateTime
  | none => none
  | some dt =>
    match dt.off with
    | some o => some ⟨dt.wall - o + localOff, some localOff⟩
    | none =>
      -- utc_dt = dt.replace(tzinfo=pytz.UTC); utc_dt.astimezone(local)
      some ⟨dt.wall - 0 + localOff, some localOff⟩

/- ### HTML sanitizer (`RssParser._clean_html`, lines 101-141) -/

/-- Whitespace characters recognised by `str.strip` / regex `\s`
(ASCII core: space, tab, newline, carriage return, vertical tab, form feed). -/
def isWs (c : Char) : Bool :=
  c == ' ' || c == '\t' || c == '\n' || c == '\r' || c == '\x0b' || c == '\x0c'

/-- Worker for `re.sub(r'\s+', ' ', line)`: the flag records whether the
current position is inside a whitespace run whose single replacement space
has already been emitted. -/
def collapseAux : Bool → List Char → List Char
  | _, [] => []
  | true, c :: t =>
    if isWs c then collapseAux true t else c :: collapseAux false t
  | false, c :: t =>
    if isWs c then ' ' :: collapseAux true t else c :: collapseAux false t

/-- `re.sub(r'\s+', ' ', line)` (line 132): every maximal whitespace run
becomes one space. -/
def collapseWs (l : List Char) : List Char := collapseAux false l

/-- `line.strip()` (line 129): drop leading and trailing whitespace. -/
def stripL (l : List Char) : List Char :=
  ((l.dropWhile isWs).reverse.dropWhile isWs).reverse

/-- `str.splitlines()` (line 128) on the common line terminators
`"\n"`, `"\r"`, `"\r\n"`: terminators end a line, a trailing segment without
a terminator is the last line, and the empty string has no lines. -/
def splitlines : List Char → List (List Char)
  | [] => []
  | c :: t =>
    if c = '\r' then
      match t with
      | '\n' :: t2 => [] :: splitlines t2
      | [] => [[]]
      | d :: t3 => [] :: splitlines (d :: t3)
    else if c = '\n' then [] :: splitlines t
    else
      match splitlines t with
      | [] => [[c]]
      | l :: ls => (c :: l) :: ls

/-- Lines 127-133: strip each line, drop it if empty, collapse internal
whitespace runs of the survivors. -/
def processLines : List (List Char) → List (List Char)
  | [] => []
  | line :: ls =>
    let s := stripL line
    if s = [] then processLines ls else collapseWs s :: processLines ls

/-- `'\n\n'.join(processed_lines)` (line 136). -/
def joinPar : List (List Char) → List Char
  | [] => []
  | [t] => t
  | t :: ts => t ++ '\n' :: '\n' :: joinPar ts

/-- After an opening `<em>` has been consumed: match `[^<]*</em>`, returning
the inner text and the remainder after the closing tag.  The inner part may
not contain `<`, so the only viable close is at the first `<`. -/
def emInner : List Char → Option (List Char × List Char)
  | [] => none
  | c :: t =>
    if c = '<' then
      match t with
      | '/' :: 'e' :: 'm' :: '>' :: r => some ([], r)
      | _ => none
    else
      match emInner t with
      | none => none
      | some (i, r) => some (c :: i, r)

/-- Match `<em>([^<]*)</em>` at the head of the list. -/
def emMatch : List Char → Option (List Char × List Char)
  | c1 :: c2 :: c3 :: c4 :: r =>
    if c1 = '<' ∧ c2 = 'e' ∧ c3 = 'm' ∧ c4 = '>' then emInner r else none
  | _ => none

/-- Fuelled worker for `re.sub(r'<em>([^<]*)</em>', r'\1', s)` (line 116):
left-to-right, non-overlapping, replacement text is not rescanned.
Fuel is an upper bound on the remaining length. -/
def regexEmGo : Nat → List Char → List Char
  | 0, l => l
  | _ + 1, [] => []
  | k + 1, c :: t =>
    match emMatch (c :: t) with
    | some (i, r) => i ++ regexEmGo k r
    | none => c :: regexEmGo k t

/-- `re.sub(r'<em>([^<]*)</em>', r'\1', html_content)` (line 116). -/
def regexEmSub (l : List Char) : List Char := regexEmGo l.length l

/-- `RssParser._clean_html` (lines 101-141).  The BeautifulSoup tag-soup
parse + `em`-unwrap + `get_text(separator='\n', strip=True)` step is the
abstract capability `g` (it is the only fallible step inside the `try`).
Empty input returns `""` without parsing (line 111); if `g` throws, the
function returns the value the local variable `html_content` holds at that
point — which is the input as already rewritten by the `<em>` regex
pre-pass of line 116, since line 116 reassigns `html_content`. -/
def clean_html (g : String → Except String String) (s : String) : String :=
  if s = "" then ""
  else
    let pre : String := ⟨regexEmSub s.data⟩
    match g pre with
    | .error _ => pre
    | .ok raw => ⟨joinPar (processLines (splitlines raw.data))⟩

/- ### Substring routing test (`"WXS_" in feed_url or "weixin" in feed_url`, line 167) -/

/-- Python string prefix test on character lists. -/
def listPrefixOf : List Char → List Char → Bool
  | [], _ => true
  | _ :: _, [] => false
  | a :: as, b :: bs => if a = b then listPrefixOf as bs else false

/-- Python `needle in hay` substring scan on character lists. -/
def inScan : List Char → List Char → Bool
  | n, [] => n.isEmpty
  | n, c :: t => listPrefixOf n (c :: t) || inScan n t

/-- Python `needle in hay` for strings. -/
def pyIn (needle hay : String) : Bool := inScan needle.data hay.data

/-- Line 167: `is_wechat_source = "WXS_" in feed_url or "weixin" in feed_url`. -/
def isWechatSource (url : String) : Bool := pyIn "WXS_" url || pyIn "weixin" url

/- ### Raw feed data -/

/-- A raw feedparser entry (duck-typed in the source; `none` = attribute
absent or `None`-valued).  `content` holds `entry.content[0].value` when
`entry.content` is present and non-empty (truthy); `published_parsed` /
`updated_parsed` hold the wall-clock minutes of the naive
`datetime(*t[:6])` built from the time tuple when it is present and truthy. -/
structure Entry where
  id : Option String
  link : Option String
  title : Option String
  summary : Option String
  content : Option String
  published_parsed : Option Int
  updated_parsed : Option Int
  deriving DecidableEq, Repr

/-- Document-level feed metadata (`feed.feed.title` etc., `none` = absent). -/
structure FeedMeta where
  title : Option String
  description : Option String
  link : Option String
  deriving DecidableEq, Repr

/-- Outcome of `feedparser.parse(feed_url)` as the source distinguishes it:
`invalid` = falsy result (line 257), `noEntries` = no `entries` attribute
(line 265); otherwise the metadata and the (possibly empty) entry list. -/
inductive ParsedFeed where
  | invalid
  | noEntries
  | parsed (meta : FeedMeta) (entries : List Entry)
  deriving Repr

/-- One raw item from the WeChat source collaborator (a dict;
`none` = key absent). -/
structure ChatItem where
  title : Option String
  link : Option String
  content : Option String
  source : Option String
  published : Option String
  deriving DecidableEq, Repr

/-- Modelled from the spec: the result shape of the external ChatSource
collaborator (`WeChatParser.parse_wechat_source`, whose module
`core/wechat_parser.py` is not under `src/`): a status string, the raw
items, and an optional error payload (spec section 6). -/
structure ChatResult where
  status : String
  items : List ChatItem
  error : Option String
  deriving DecidableEq, Repr

/-- The publish value handed to the store's `add_news_article`: `None`, an
isoformatted datetime, or a pre-formatted string (WeChat branch). -/
inductive PubVal where
  | noneVal
  | dtVal (d : PyDateTime)
  | strVal (s : String)
  deriving DecidableEq, Repr

/-- A processed RSS entry dict (lines 367-376). -/
structure Article where
  title : String
  link : Option String
  summary : String
  published : Option PyDateTime
  source : String
  content : String
  article_id : String
  feed_url : String
  deriving DecidableEq, Repr

/-- A processed WeChat entry: the original item dict with the generated
`article_id` added (line 228). -/
structure ChatOut where
  item : ChatItem
  article_id : String
  deriving DecidableEq, Repr

/-- An element of a fetch result's `items` list: an RSS article dict, a
processed WeChat item, or a raw WeChat item passed through inside a failed
WeChat result (line 176 returns the collaborator's result unchanged). -/
inductive OutItem where
  | rss (a : Article)
  | chat (c : ChatOut)
  | chatRaw (c : ChatItem)
  deriving DecidableEq, Repr

/-- The `article_id` field of an output item. -/
def outArticleId : OutItem → String
  | .rss a => a.article_id
  | .chat c => c.article_id
  | .chatRaw _ => ""

/-- The `stats` dict of a successful fetch result (lines 428-432). -/
structure Stats where
  total_available : Nat
  processed : Nat
  skipped : Nat
  deriving DecidableEq, Repr

/-- The dictionary `fetch_feed` returns.  Failure results carry no
`feed_info` and no `stats` (`none`). -/
structure FetchResult where
  status : String
  items : List OutItem
  error : Option String
  feed_title : Option String
  feed_description : Option String
  feed_link : Option String
  stats : Option Stats
  deriving DecidableEq, Repr

/-- A failure dictionary `{"status": "fail", "error": msg, "items": []}`. -/
def failResult (msg : String) : FetchResult :=
  ⟨"fail", [], some msg, none, none, none, none⟩

/-- The external collaborators and ambient state `fetch_feed` reads:
the refreshed configuration flag, the store (`NewsDBManager`), `hashlib.md5`
as a hex-digest function on strings (UTF-8 byte digesting of a string is a
function of the string), the BeautifulSoup HTML-to-text capability, the
feedparser front end, the WeChat source collaborator, the local timezone
offset and the current clock reading. -/
structure Env where
  skip_processed : Bool
  normalize_article_id : String → String
  is_article_discarded_for_task : String → String → Bool
  is_article_sent_for_task : String → String → Bool
  md5hex : String → String
  extract : String → Except String String
  parse : String → ParsedFeed
  chatFetch : String → Nat → ChatResult
  add_news_article : String → String → Option String → String → PubVal → Option String → Except Exn Unit
  localOff : Int
  nowIso : String

/-- Reason an entry is skipped by the dedup gate. -/
inductive SkipReason where
  | discarded
  | sent
  deriving DecidableEq, Repr

/-- The task-scoped dedup gate, inlined identically at lines 196-206 (WeChat
branch) and 316-326 (RSS branch): only when `self.skip_processed and
task_id` is truthy, query "discarded for this task" first, then "sent for
this task". -/
def shouldSkip (env : Env) (taskId : Option String) (articleId : String) : Option SkipReason :=
  if env.skip_processed && pyTruthyS taskId then
    match taskId with
    | some tid =>
      if env.is_article_discarded_for_task articleId tid then some .discarded
      else if env.is_article_sent_for_task articleId tid then some .sent
      else none
    | none => none
  else none

/- ### WeChat branch (lines 170-250) -/

/-- Lines 184-193: the WeChat article id,
`"wechat_" + md5(normalize(link or feed_url) + "::" + (title or "No Title"))`. -/
def chatAid (env : Env) (feedUrl : String) (e : ChatItem) : String :=
  let title := e.title.getD "No Title"
  let originalLink := e.link.getD feedUrl
  let normalizedLink := env.normalize_article_id originalLink
  "wechat_" ++ env.md5hex (normalizedLink ++ "::" ++ title)

/-- The `for entry in wechat_result["items"]` loop (lines 183-229), with the
accumulated processed entries (reversed) and the skipped count as state. -/
def wechatLoop (env : Env) (feedUrl : String) (taskId : Option String) :
    List ChatItem → List ChatOut → Nat → Except Exn (List ChatOut × Nat)
  | [], acc, sk => .ok (acc.reverse, sk)
  | e :: rest, acc, sk =>
    let aid := chatAid env feedUrl e
    match shouldSkip env taskId aid with
    | some _ => wechatLoop env feedUrl taskId rest acc (sk + 1)
    | none =>
      let content := e.content.getD ""
      let chash := if content = "" then none else some (env.md5hex content)
      match env.add_news_article aid (e.title.getD "No Title") (some (e.link.getD feedUrl))
          (e.source.getD "微信公众号") (.strVal (e.published.getD env.nowIso)) chash with
      | .error ex => .error ex
      | .ok _ => wechatLoop env feedUrl taskId rest (⟨e, aid⟩ :: acc) sk

/-- Lines 170-250: the whole WeChat branch.  A non-success collaborator
result is returned as-is (line 176); otherwise every item is processed —
note there is no `items_count` cutoff in this loop. -/
def wechatFetch (env : Env) (feedUrl : String) (itemsCount : Nat) (taskId : Option String) :
    Except Exn FetchResult :=
  let r := env.chatFetch feedUrl itemsCount
  if r.status ≠ "success" then
    .ok ⟨r.status, r.items.map .chatRaw, r.error, none, none, none, none⟩
  else
    match wechatLoop env feedUrl taskId r.items [] 0 with
    | .error ex => .error ex
    | .ok (out, sk) =>
      .ok ⟨"success", out.map .chat, none,
        some ((out.head?.map fun o => o.item.source.getD "微信公众号").getD "未知"),
        some "微信公众号内容", some feedUrl,
        some ⟨r.items.length, out.length, sk⟩⟩

/- ### Generic RSS branch (lines 252-433) -/

/-- Lines 335-349: build the local-time publish datetime, preferring
`published_parsed` over `updated_parsed`; the naive tuple datetime gets UTC
attached (`replace(tzinfo=pytz.UTC)`) before `_convert_to_local_time`. -/
def pubOf (env : Env) (e : Entry) : Option PyDateTime :=
  match e.published_parsed with
  | some w => convert_to_local_time env.localOff (some ⟨w, some 0⟩)
  | none =>
    match e.updated_parsed with
    | some w => convert_to_local_time env.localOff (some ⟨w, some 0⟩)
    | none => none

/-- The `while len(processed_entries) < items_count and entry_index <
total_entries` loop (lines 293-400), as recursion over the remaining
entries with the collected articles (reversed) and skipped count as state.
An entry whose `id`-or-`link` base identity is falsy is passed over without
touching either counter (lines 307-310).  The store call at line 393 passes
`entry.title` unguarded, so an identified, unskipped entry without a title
raises (propagating to the outer handler). -/
def rssLoop (env : Env) (feedUrl : String) (meta : FeedMeta) (itemsCount : Nat)
    (taskId : Option String) :
    List Entry → List Article → Nat → Except Exn (List Article × Nat)
  | [], acc, sk => .ok (acc.reverse, sk)
  | e :: rest, acc, sk =>
    if acc.length < itemsCount then
      let baseId := if pyTruthyS e.id then e.id else e.link
      match baseId with
      | none => rssLoop env feedUrl meta itemsCount taskId rest acc sk
      | some b =>
        if b = "" then rssLoop env feedUrl meta itemsCount taskId rest acc sk
        else
          let aid := env.normalize_article_id b
          match shouldSkip env taskId aid with
          | some _ => rssLoop env feedUrl meta itemsCount taskId rest acc (sk + 1)
          | none =>
            let published := pubOf env e
            let cleanedSummary := clean_html env.extract (e.summary.getD "")
            let rawContent := match e.content with
              | some c => c
              | none => e.summary.getD ""
            let cleanedContent := clean_html env.extract rawContent
            let src := meta.title.getD feedUrl
            let art : Article :=
              ⟨e.title.getD "无标题", e.link, cleanedSummary, published, src,
                cleanedContent, aid, feedUrl⟩
            let contentToHash := if cleanedContent = "" then cleanedSummary else cleanedContent
            let chash := if contentToHash = "" then none else some (env.md5hex contentToHash)
            match e.title with
            | none => .error ⟨"AttributeError", "object has no attribute title"⟩
            | some t =>
              match env.add_news_article aid t e.link src
                  (match published with | some d => .dtVal d | none => .noneVal) chash with
              | .error ex => .error ex
              | .ok _ => rssLoop env feedUrl meta itemsCount taskId rest (art :: acc) sk
    else .ok (acc.reverse, sk)

/-- The successful-parse tail of the RSS branch (lines 281-433). -/
def rssFetch (env : Env) (feedUrl : String) (itemsCount : Nat) (taskId : Option String)
    (meta : FeedMeta) (entries : List Entry) : Except Exn FetchResult :=
  match rssLoop env feedUrl meta itemsCount taskId entries [] 0 with
  | .error ex => .error ex
  | .ok (items, sk) =>
    .ok ⟨"success", items.map .rss, none,
      some (meta.title.getD "未知"), some (meta.description.getD "无描述"),
      some (meta.link.getD feedUrl),
      some ⟨entries.length, items.length, sk⟩⟩

/-- The RSS side of the dispatch: feedparser outcome triage (lines 254-279)
then the entry loop. -/
def rssRoute (env : Env) (feedUrl : String) (itemsCount : Nat) (taskId : Option String) :
    Except Exn FetchResult :=
  match env.parse feedUrl with
  | .invalid => .ok (failResult "无效的Feed")
  | .noEntries => .ok (failResult "Feed结构无效")
  | .parsed meta entries =>
    if entries = [] then .ok (failResult "Feed为空")
    else rssFetch env feedUrl itemsCount taskId meta entries

/-- The body of `fetch_feed` inside the outer `try` (lines 152-433). -/
def fetch_feed_body (env : Env) (feedUrl : String) (itemsCount : Nat)
    (taskId : Option String) : Except Exn FetchResult :=
  if isWechatSource feedUrl then wechatFetch env feedUrl itemsCount taskId
  else rssRoute env feedUrl itemsCount taskId

/-- `RssParser.fetch_feed` (lines 143-446): the body guarded by the outer
`except Exception` handler, which converts any uncaught fault into
`{"status": "fail", "error": str(e), "items": []}` (lines 435-446). -/
def fetch_feed (env : Env) (feedUrl : String) (itemsCount : Nat)
    (taskId : Option String) : FetchResult :=
  match fetch_feed_body env feedUrl itemsCount taskId with
  | .ok r => r
  | .error e => failResult e.message

/- ### Concrete environments and data for witnesses and counterexamples.
Env fields in order: skip_processed, normalize_article_id,
is_article_discarded_for_task, is_article_sent_for_task, md5hex, extract,
parse, chatFetch, add_news_article, localOff, nowIso. -/

/-- An RSS entry with an id, a link and a title. -/
def entryA : Entry := ⟨some "id-a", some "http://a", some "A", none, none, none, none⟩

/-- A second distinct RSS entry. -/
def entryB : Entry := ⟨some "id-b", some "http://b", some "B", none, none, none, none⟩

/-- An RSS entry with neither id nor link. -/
def entryNoId : Entry := ⟨none, none, some "ghost", none, none, none, none⟩

/-- Two entries that share the same link (and no id), for the within-run
duplicate scenario. -/
def entryDup1 : Entry := ⟨none, some "http://x", some "D1", none, none, none, none⟩

/-- Second entry with the same link as `entryDup1`. -/
def entryDup2 : Entry := ⟨none, some "http://x", some "D2", none, none, none, none⟩

/-- A WeChat item with link `"L"` and title `"T"`. -/
def chatItemLT : ChatItem := ⟨some "T", some "L", none, none, none⟩

/-- Environment for the WeChat id counterexample/witness: identity
canonicalizer and identity digest, dedup off, chat source returning one
item. -/
def envChat : Env :=
  ⟨false, id, fun _ _ => false, fun _ _ => false, id, fun s => .ok s,
   fun _ => .invalid, fun _ _ => ⟨"success", [chatItemLT], none⟩,
   fun _ _ _ _ _ _ => .ok (), 480, "2024-01-01T00:00:00"⟩

/-- Environment whose feed has three plain entries and whose store is empty. -/
def envRss3 : Env :=
  ⟨true, id, fun _ _ => false, fun _ _ => false, id, fun s => .ok s,
   fun _ => .parsed ⟨some "Site", none, none⟩ [entryA, entryB, entryNoId],
   fun _ _ => ⟨"fail", [], some "err"⟩,
   fun _ _ _ _ _ _ => .ok (), 480, "2024-01-01T00:00:00"⟩

/-- Environment whose store reports every article both discarded and sent. -/
def envBoth : Env :=
  ⟨true, id, fun _ _ => true, fun _ _ => true, id, fun s => .ok s,
   fun _ => .invalid, fun _ _ => ⟨"fail", [], some "err"⟩,
   fun _ _ _ _ _ _ => .ok (), 480, "2024-01-01T00:00:00"⟩

/-- Environment whose store write always raises `ValueError("boom")`. -/
def envThrow : Env :=
  ⟨false, id, fun _ _ => false, fun _ _ => false, id, fun s => .ok s,
   fun _ => .parsed ⟨some "Site", none, none⟩ [entryA],
   fun _ _ => ⟨"fail", [], some "err"⟩,
   fun _ _ _ _ _ _ => .error ⟨"ValueError", "boom"⟩, 480, "2024-01-01T00:00:00"⟩

/-- Environment whose feed carries two entries with the same link and whose
store suppresses nothing, though dedup is on. -/
def envDup : Env :=
  ⟨true, id, fun _ _ => false, fun _ _ => false, id, fun s => .ok s,
   fun _ => .parsed ⟨some "Site", none, none⟩ [entryDup1, entryDup2],
   fun _ _ => ⟨"fail", [], some "err"⟩,
   fun _ _ _ _ _ _ => .ok (), 480, "2024-01-01T00:00:00"⟩

/-- An HTML-to-text capability that always throws, for exercising the
fail-soft path of the sanitizer. -/
def extractThrow : String → Except String String := fun _ => .error "parse error"

/-- `skipTagBody t` drops characters up to and including the next `'>'`. -/
def skipTagBody : List Char → List Char
  | [] => []
  | c :: t => if c = '>' then t else skipTagBody t

/-- Fuelled worker for `stripTags`; fuel bounds the remaining length. -/
def stripTagsGo : Nat → List Char → List Char
  | 0, l => l
  | _ + 1, [] => []
  | k + 1, c :: t =>
    if c = '<' then stripTagsGo k (skipTagBody t) else c :: stripTagsGo k t

/-- A simple concrete markup stripper: drops every `<...>` region, keeps
the rest.  It satisfies the tag-soup text-extraction contract: total,
markup-free output, identity on markup-free input. -/
def stripTags (l : List Char) : List Char := stripTagsGo l.length l

/-- The concrete extraction capability built from `stripTags`. -/
def extractDemo : String → Except String String := fun s => .ok ⟨stripTags s.data⟩

/- ### Auxiliary notions used by the sanitizer lemmas -/

/-- An optional character that, if present, is not whitespace. -/
def notWsOpt : Option Char → Bool
  | none => true
  | some c => !isWs c

/-- The first character, if any, is not whitespace. -/
def headNotWs (l : List Char) : Bool := notWsOpt l.head?

/-- The last character, if any, is not whitespace. -/
def lastNotWs (l : List Char) : Bool := notWsOpt l.getLast?

/-- Every whitespace character is a plain space, and no whitespace character
is immediately followed by another whitespace character. -/
def cleanLine : List Char → Bool
  | [] => true
  | [c] => !isWs c || (c == ' ')
  | c :: d :: t => (!isWs c || ((c == ' ') && !isWs d)) && cleanLine (d :: t)

/-- Interleave the empty line between consecutive lines: the shape
`splitlines` recovers from a `"\n\n"`-joined list of terminator-free lines. -/
def sepList : List (List Char) → List (List Char)
  | [] => []
  | [t] => [t]
  | t :: ts => t :: [] :: sepList ts

/- ## Theorems -/

theorem listPrefixOf_iff : ∀ n h : List Char, listPrefixOf n h = true ↔ n <+: h := by
  intro n
  induction n with
  | nil => intro h; simp [listPrefixOf]
  | cons a as ih =>
    intro h
    cases h with
    | nil => simp [listPrefixOf]
    | cons b bs =>
      simp only [listPrefixOf]
      by_cases hab : a = b
      · subst hab; simp [ih, List.cons_prefix_cons]
      · simp [hab, List.cons_prefix_cons]

theorem inScan_iff : ∀ n h : List Char, inScan n h = true ↔ n <:+: h := by
  intro n h
  induction h with
  | nil => simp [inScan, List.isEmpty_iff, List.infix_nil]
  | cons c t ih =>
    simp [inScan, Bool.or_eq_true, listPrefixOf_iff, ih, List.infix_cons_iff]

theorem pyIn_iff (n h : String) : pyIn n h = true ↔ n.data <:+: h.data :=
  inScan_iff n.data h.data

/-- C3: a `None` publish timestamp normalizes to `None`; a timezone-aware
timestamp is converted to the process's local timezone preserving the
instant (`wall - off` is invariant); a naive timestamp first gets UTC
attached (offset 0) and is then converted exactly as the corresponding
aware timestamp would be; concretely, with wall time measured in minutes
from 2024-01-01T00:00:00 and a local offset of +08:00 (480 minutes), the
naive reading 0 (i.e. 2024-01-01T00:00:00) normalizes to wall reading 480
(i.e. 2024-01-01T08:00:00) carrying the local +08:00 offset. -/
theorem c3_time_normalization :
    ∀ localOff : Int,
      convert_to_local_time localOff none = none ∧
      (∀ w o : Int, convert_to_local_time localOff (some ⟨w, some o⟩) =
        some ⟨w - o + localOff, some localOff⟩) ∧
      (∀ w : Int, convert_to_local_time localOff (some ⟨w, none⟩) =
        convert_to_local_time localOff (some ⟨w, some 0⟩)) ∧
      convert_to_local_time 480 (some ⟨0, none⟩) = some ⟨480, some 480⟩ := by
  intro localOff
  refine ⟨rfl, fun w o => rfl, fun w => rfl, by decide⟩

/-- C5: the dedup gate never skips when `skip_processed` is off or the task
id is absent (Python-falsy: missing or empty); otherwise the store's
"discarded for this task" answer is consulted first and takes precedence,
then "sent for this task", and an entry is only skipped when one of the
two queries is positive. -/
theorem c5_dedup_gate :
    ∀ (env : Env) (taskId : Option String) (aid : String),
      ((env.skip_processed = false ∨ taskId = none ∨ taskId = some "") →
        shouldSkip env taskId aid = none) ∧
      (∀ tid : String, taskId = some tid → tid ≠ "" → env.skip_processed = true →
        ((env.is_article_discarded_for_task aid tid = true →
            shouldSkip env taskId aid = some SkipReason.discarded) ∧
         (env.is_article_discarded_for_task aid tid = false →
          env.is_article_sent_for_task aid tid = true →
            shouldSkip env taskId aid = some SkipReason.sent) ∧
         (env.is_article_discarded_for_task aid tid = false →
          env.is_article_sent_for_task aid tid = false →
            shouldSkip env taskId aid = none))) := by
  intro env taskId aid
  constructor
  · rintro (h | h | h) <;> simp [shouldSkip, h, pyTruthyS]
  · rintro tid rfl hne hsp
    have ht : pyTruthyS (some tid) = true := by simp [pyTruthyS, hne]
    refine ⟨fun hd => ?_, fun hd hs => ?_, fun hd hs => ?_⟩
    · simp [shouldSkip, hsp, ht, hd]
    · simp [shouldSkip, hsp, ht, hd, hs]
    · simp [shouldSkip, hsp, ht, hd, hs]

/-- C5 witness: with a store that reports an article both discarded and
sent for task `"T"`, the gate skips with the `discarded` reason. -/
theorem c5_dedup_gate_witness :
    shouldSkip envBoth (some "T") "a" = some SkipReason.discarded :=
  ((c5_dedup_gate envBoth (some "T") "a").2 "T" rfl (by decide) rfl).1 rfl

/-- C6: an entry with neither an `id` nor a `link` is a pure no-op of the
ingestion loop: the loop state (collected articles and skipped counter) is
exactly the state reached by processing the remaining entries, so the entry
is excluded from `items`, `skipped` is not incremented, and processing
continues with the next entry. -/
theorem c6_missing_identity_noop :
    ∀ (env : Env) (feedUrl : String) (meta : FeedMeta) (itemsCount : Nat)
      (taskId : Option String) (e : Entry) (rest : List Entry)
      (acc : List Article) (sk : Nat),
      e.id = none → e.link = none → acc.length < itemsCount →
      rssLoop env feedUrl meta itemsCount taskId (e :: rest) acc sk =
        rssLoop env feedUrl meta itemsCount taskId rest acc sk := by
  intro env feedUrl meta itemsCount taskId e rest acc sk hid hlink hlt
  simp [rssLoop, hlt, hid, hlink, pyTruthyS]

/-- C6 witness: the identity-free entry `entryNoId` is a no-op step. -/
theorem c6_missing_identity_noop_witness :
    rssLoop envRss3 "u" ⟨none, none, none⟩ 5 none [entryNoId] [] 0 =
      rssLoop envRss3 "u" ⟨none, none, none⟩ 5 none [] [] 0 :=
  c6_missing_identity_noop envRss3 "u" ⟨none, none, none⟩ 5 none entryNoId [] [] 0
    rfl rfl (by decide)

/-- C9: a source URL is routed to the WeChat branch exactly when it
contains the substring `"WXS_"` or the substring `"weixin"`; every other
URL goes through the generic RSS branch. -/
theorem c9_wechat_routing :
    ∀ (env : Env) (url : String) (itemsCount : Nat) (taskId : Option String),
      (isWechatSource url = true ↔
        ("WXS_".data <:+: url.data ∨ "weixin".data <:+: url.data)) ∧
      (isWechatSource url = true →
        fetch_feed_body env url itemsCount taskId =
          wechatFetch env url itemsCount taskId) ∧
      (isWechatSource url = false →
        fetch_feed_body env url itemsCount taskId =
          rssRoute env url itemsCount taskId) := by
  intro env url itemsCount taskId
  refine ⟨?_, fun h => ?_, fun h => ?_⟩
  · simp [isWechatSource, Bool.or_eq_true, pyIn_iff]
  · simp [fetch_feed_body, h]
  · simp [fetch_feed_body, h]

/-- C9 witness: a `weixin` URL is routed to the WeChat branch. -/
theorem c9_wechat_routing_witness :
    isWechatSource "https://mp.weixin.qq.com/x" = true ∧
      fetch_feed_body envChat "https://mp.weixin.qq.com/x" 1 none =
        wechatFetch envChat "https://mp.weixin.qq.com/x" 1 none := by
  have h := c9_wechat_routing envChat "https://mp.weixin.qq.com/x" 1 none
  exact ⟨h.1.mpr (Or.inr (by decide)), h.2.1 (h.1.mpr (Or.inr (by decide)))⟩

theorem wechatLoop_aid (env : Env) (feedUrl : String) (taskId : Option String) :
    ∀ (items : List ChatItem) (acc : List ChatOut) (sk : Nat)
      (out : List ChatOut) (sk' : Nat),
      (∀ o ∈ acc, o.article_id = chatAid env feedUrl o.item) →
      wechatLoop env feedUrl taskId items acc sk = .ok (out, sk') →
      ∀ o ∈ out, o.article_id = chatAid env feedUrl o.item := by
  intro items
  induction items with
  | nil =>
    intro acc sk out sk' hacc heq o ho
    simp only [wechatLoop, Except.ok.injEq, Prod.mk.injEq] at heq
    rw [← heq.1] at ho
    exact hacc o (List.mem_reverse.mp ho)
  | cons e rest ih =>
    intro acc sk out sk' hacc heq o ho
    simp only [wechatLoop] at heq
    split at heq
    · exact ih _ _ _ _ hacc heq o ho
    · split at heq
      · simp at heq
      · refine ih _ _ _ _ ?_ heq o ho
        intro o' ho'
        rcases List.mem_cons.mp ho' with h | h
        · subst h; rfl
        · exact hacc o' h

/-- C1 (amended): every item the WeChat branch emits carries
`article_id = "wechat_" + md5hex(canonicalize(link or feed_url) + "::" +
(title or "No Title"))`; in particular an item with link `L` and title `T`
gets `"wechat_" + md5hex(canonicalize(L) + "::" + T)`.  The id is a pure
function of the canonicalizer, the digest, the feed URL, the link and the
title, so repeated runs on identical inputs yield the same id.  The prefix
is `"wechat_"`, not the `"chat_"` the claim states. -/
theorem c1_wechat_article_id :
    ∀ (env : Env) (url : String) (itemsCount : Nat) (taskId : Option String)
      (o : ChatOut),
      OutItem.chat o ∈ (fetch_feed env url itemsCount taskId).items →
      o.article_id =
        "wechat_" ++ env.md5hex
          (env.normalize_article_id (o.item.link.getD url) ++ "::" ++
            o.item.title.getD "No Title") := by
  intro env url itemsCount taskId o ho
  suffices h : o.article_id = chatAid env url o.item by rw [h]; rfl
  unfold fetch_feed at ho
  cases hbody : fetch_feed_body env url itemsCount taskId with
  | error e => rw [hbody] at ho; simp [failResult] at ho
  | ok r =>
    rw [hbody] at ho
    simp only at ho
    unfold fetch_feed_body at hbody
    by_cases hw : isWechatSource url
    · rw [if_pos hw] at hbody
      simp only [wechatFetch] at hbody
      split at hbody
      · injection hbody with hr
        rw [← hr] at ho
        simp only [List.mem_map] at ho
        obtain ⟨c, -, hc⟩ := ho
        exact OutItem.noConfusion hc
      · split at hbody
        next ex heq => simp at hbody
        next out sk heq =>
          injection hbody with hr
          rw [← hr] at ho
          simp only [List.mem_map] at ho
          obtain ⟨c, hcmem, hc⟩ := ho
          have hco : c = o := by injection hc
          subst hco
          exact wechatLoop_aid env url taskId _ [] 0 out sk (by simp) heq c hcmem
    · rw [if_neg hw] at hbody
      simp only [rssRoute] at hbody
      split at hbody
      · injection hbody with hr; rw [← hr] at ho; simp [failResult] at ho
      · injection hbody with hr; rw [← hr] at ho; simp [failResult] at ho
      · split at hbody
        · injection hbody with hr; rw [← hr] at ho; simp [failResult] at ho
        · unfold rssFetch at hbody
          split at hbody
          next ex heq2 => simp at hbody
          next items sk heq2 =>
            injection hbody with hr
            rw [← hr] at ho
            simp only [List.mem_map] at ho
            obtain ⟨a, -, ha⟩ := ho
            exact OutItem.noConfusion ha

/-- C1 witness: the single item of `envChat`'s WeChat source, with link
`"L"` and title `"T"`, identity canonicalizer and identity digest, is
emitted with `article_id = "wechat_" ++ ("L" ++ "::" ++ "T")`. -/
theorem c1_wechat_article_id_witness :
    (OutItem.chat ⟨chatItemLT, "wechat_L::T"⟩ ∈
        (fetch_feed envChat "WXS_u" 5 none).items) ∧
    ("wechat_L::T" : String) =
      "wechat_" ++ envChat.md5hex
        (envChat.normalize_article_id (chatItemLT.link.getD "WXS_u") ++ "::" ++
          chatItemLT.title.getD "No Title") :=
  ⟨by decide,
   c1_wechat_article_id envChat "WXS_u" 5 none ⟨chatItemLT, "wechat_L::T"⟩ (by decide)⟩

/-- C1 counterexample: with the canonicalizer and the digest both
instantiated as the identity function, the item with link `"L"` and title
`"T"` is assigned `"wechat_L::T"`, which is not the
`"chat_" + hash(canonicalize(L) + "::" + T) = "chat_L::T"` the claim
states. -/
theorem c1_chat_prefix_counterexample :
    (fetch_feed envChat "WXS_u" 5 none).items.map outArticleId = ["wechat_L::T"] ∧
    ¬ ((fetch_feed envChat "WXS_u" 5 none).items.map outArticleId =
        ["chat_" ++ ("L" ++ "::" ++ "T")]) := by
  constructor
  · decide
  · decide

/-- C7 (amended): whenever the body of `fetch_feed` raises, the outer
handler converts the fault into `{"status": "fail", "error": str(e),
"items": []}` — the exception is never propagated (`fetch_feed` is a total
function).  The error value carries only the fault's message; the class
name is logged but not included in the result. -/
theorem c7_fault_containment :
    ∀ (env : Env) (url : String) (itemsCount : Nat) (taskId : Option String)
      (e : Exn),
      fetch_feed_body env url itemsCount taskId = .error e →
      fetch_feed env url itemsCount taskId = failResult e.message := by
  intro env url itemsCount taskId e h
  simp [fetch_feed, h]

/-- C7 witness: with a store whose write raises `ValueError("boom")`, the
fetch returns the fail dictionary with error `"boom"`. -/
theorem c7_fault_containment_witness :
    fetch_feed envThrow "http://feed" 5 none = failResult "boom" :=
  c7_fault_containment envThrow "http://feed" 5 none ⟨"ValueError", "boom"⟩ rfl

/-- C7 counterexample: when the store write raises `ValueError("boom")`,
the result is `status = "fail"` with empty items, but the error value is
only the message `"boom"` — the fault's class name `"ValueError"` does not
occur in the result, contradicting the claim that the error value carries
the message and the class name. -/
theorem c7_error_payload_counterexample :
    (fetch_feed envThrow "http://feed" 5 none).status = "fail" ∧
    (fetch_feed envThrow "http://feed" 5 none).items = [] ∧
    (fetch_feed envThrow "http://feed" 5 none).error = some "boom" ∧
    pyIn "ValueError" "boom" = false := by
  refine ⟨rfl, rfl, rfl, by decide⟩

/-- C10: no within-run deduplication — `envDup`'s feed carries two distinct
entries normalizing to the same `article_id` `"http://x"`; with task-scoped
dedup enabled but the store suppressing nothing, both are appended to
`items` and both are counted in `processed`. -/
theorem c10_no_within_run_dedup :
    envDup.skip_processed = true ∧
    (fetch_feed envDup "http://feed" 10 (some "T")).items.map outArticleId =
      ["http://x", "http://x"] ∧
    (fetch_feed envDup "http://feed" 10 (some "T")).stats = some ⟨2, 2, 0⟩ := by
  refine ⟨rfl, by decide, by decide⟩

/-- C4 divergence: when the internal parser throws on the input
`"<em>x</em>"`, the sanitizer returns `"x"` — the input with the `<em>`
regex pre-pass already applied (line 116 reassigns `html_content` before
the parse) — not the original input unchanged, contrary to the source's
own comment (line 140) and the spec.  The other two parts of the claim do
hold: empty input short-circuits to `""`, and the embedded function is
total. -/
theorem c4_failsoft_divergence :
    clean_html extractThrow "<em>x</em>" = "x" ∧
    ("x" : String) ≠ "<em>x</em>" ∧
    clean_html extractThrow "" = "" := by
  refine ⟨by decide, by decide, rfl⟩

theorem rssLoop_stats (env : Env) (feedUrl : String) (meta : FeedMeta)
    (itemsCount : Nat) (taskId : Option String) :
    ∀ (entries : List Entry) (acc : List Article) (sk : Nat)
      (items : List Article) (sk' : Nat),
      rssLoop env feedUrl meta itemsCount taskId entries acc sk = .ok (items, sk') →
      items.length + sk' ≤ acc.length + sk + entries.length ∧
      (acc.length ≤ itemsCount → items.length ≤ itemsCount) := by
  intro entries
  induction entries with
  | nil =>
    intro acc sk items sk' h
    simp only [rssLoop, Except.ok.injEq, Prod.mk.injEq] at h
    obtain ⟨h1, h2⟩ := h
    subst h2
    rw [← h1]
    simp
  | cons e rest ih =>
    intro acc sk items sk' h
    simp only [rssLoop] at h
    by_cases hlt : acc.length < itemsCount
    · rw [if_pos hlt] at h
      split at h
      · have hr := ih acc sk items sk' h
        exact ⟨by simp only [List.length_cons]; omega, hr.2⟩
      · split at h
        · have hr := ih acc sk items sk' h
          exact ⟨by simp only [List.length_cons]; omega, hr.2⟩
        · split at h
          · have hr := ih acc (sk + 1) items sk' h
            exact ⟨by have := hr.1; simp only [List.length_cons]; omega, hr.2⟩
          · split at h
            · simp at h
            · split at h
              · simp at h
              · have hr := ih (_ :: acc) sk items sk' h
                constructor
                · have := hr.1; simp only [List.length_cons] at this ⊢; omega
                · intro hle
                  exact hr.2 (by simp only [List.length_cons]; omega)
    · rw [if_neg hlt] at h
      simp only [Except.ok.injEq, Prod.mk.injEq] at h
      obtain ⟨h1, h2⟩ := h
      subst h2
      rw [← h1]
      constructor
      · simp only [List.length_reverse, List.length_cons]; omega
      · intro hle; simp only [List.length_reverse]; omega

theorem wechatLoop_stats (env : Env) (feedUrl : String) (taskId : Option String) :
    ∀ (items : List ChatItem) (acc : List ChatOut) (sk : Nat)
      (out : List ChatOut) (sk' : Nat),
      wechatLoop env feedUrl taskId items acc sk = .ok (out, sk') →
      out.length + sk' = acc.length + sk + items.length := by
  intro items
  induction items with
  | nil =>
    intro acc sk out sk' h
    simp only [wechatLoop, Except.ok.injEq, Prod.mk.injEq] at h
    obtain ⟨h1, h2⟩ := h
    subst h2
    rw [← h1]
    simp
  | cons e rest ih =>
    intro acc sk out sk' h
    simp only [wechatLoop] at h
    split at h
    · have := ih acc (sk + 1) out sk' h
      simp only [List.length_cons]
      omega
    · split at h
      · simp at h
      · have := ih (_ :: acc) sk out sk' h
        simp only [List.length_cons] at this ⊢
        omega

/-- C2: every successful fetch result — from either branch — satisfies
`processed = len(items)`, `processed ≤ items_count`, and
`processed + skipped ≤ total_available`.  The hypothesis on `chatFetch` is
the ChatSource collaborator contract (spec section 6: it is asked for a
desired count; `core/wechat_parser.py` is not under `src/`): it returns at
most that many items.  The RSS branch needs no such hypothesis — its loop
enforces the cutoff itself. -/
theorem c2_stats_invariants :
    ∀ (env : Env) (url : String) (itemsCount : Nat) (taskId : Option String),
      (∀ (u : String) (k : Nat), (env.chatFetch u k).items.length ≤ k) →
      (fetch_feed env url itemsCount taskId).status = "success" →
      ∃ s : Stats,
        (fetch_feed env url itemsCount taskId).stats = some s ∧
        s.processed = (fetch_feed env url itemsCount taskId).items.length ∧
        s.processed ≤ itemsCount ∧
        s.processed + s.skipped ≤ s.total_available := by
  intro env url itemsCount taskId hchat hst
  unfold fetch_feed at hst ⊢
  cases hbody : fetch_feed_body env url itemsCount taskId with
  | error e =>
    rw [hbody] at hst
    simp only [failResult] at hst
    exact absurd hst (by decide)
  | ok r =>
    rw [hbody] at hst
    simp only at hst ⊢
    unfold fetch_feed_body at hbody
    by_cases hw : isWechatSource url
    · rw [if_pos hw] at hbody
      simp only [wechatFetch] at hbody
      split at hbody
      next hfail =>
        injection hbody with hr
        rw [← hr] at hst
        exact absurd hst (by simpa using hfail)
      next hsucc =>
        split at hbody
        next ex heq => simp at hbody
        next out sk heq =>
          injection hbody with hr
          rw [← hr]
          refine ⟨⟨(env.chatFetch url itemsCount).items.length, out.length, sk⟩,
            rfl, by simp, ?_, ?_⟩
          · have h1 := wechatLoop_stats env url taskId _ [] 0 out sk heq
            have h2 := hchat url itemsCount
            simp only [List.length_nil] at h1
            show out.length ≤ itemsCount
            omega
          · have h1 := wechatLoop_stats env url taskId _ [] 0 out sk heq
            simp only [List.length_nil] at h1
            show out.length + sk ≤ (env.chatFetch url itemsCount).items.length
            omega
    · rw [if_neg hw] at hbody
      simp only [rssRoute] at hbody
      split at hbody
      · injection hbody with hr; rw [← hr] at hst
        exact absurd hst (by decide)
      · injection hbody with hr; rw [← hr] at hst
        exact absurd hst (by decide)
      next meta entries heq =>
        split at hbody
        · injection hbody with hr; rw [← hr] at hst
          exact absurd hst (by decide)
        · simp only [rssFetch] at hbody
          split at hbody
          next ex heq2 => simp at hbody
          next items sk heq2 =>
            injection hbody with hr
            rw [← hr]
            have h1 := rssLoop_stats env url _ itemsCount taskId _ [] 0 items sk heq2
            simp only [List.length_nil] at h1
            refine ⟨⟨entries.length, items.length, sk⟩, rfl, by simp, ?_, ?_⟩
            · show items.length ≤ itemsCount
              exact h1.2 (Nat.zero_le _)
            · show items.length + sk ≤ entries.length
              have := h1.1; omega

/-- C2 witness: the three-entry feed of `envRss3` fetched with
`items_count = 2` yields a success whose stats satisfy the invariants
(`processed = 2 = len(items) ≤ 2`, `2 + 0 ≤ 3`). -/
theorem c2_stats_invariants_witness :
    ∃ s : Stats,
      (fetch_feed envRss3 "http://feed" 2 (some "T")).stats = some s ∧
      s.processed = (fetch_feed envRss3 "http://feed" 2 (some "T")).items.length ∧
      s.processed ≤ 2 ∧
      s.processed + s.skipped ≤ s.total_available :=
  c2_stats_invariants envRss3 "http://feed" 2 (some "T")
    (fun u k => by simp [envRss3]) (by decide)

/- ### Sanitizer lemmas (towards C8) -/

theorem collapseAux_cons_true (c : Char) (t : List Char) :
    collapseAux true (c :: t) =
      if isWs c = true then collapseAux true t else c :: collapseAux false t := rfl

theorem collapseAux_cons_false (c : Char) (t : List Char) :
    collapseAux false (c :: t) =
      if isWs c = true then ' ' :: collapseAux true t else c :: collapseAux false t := rfl

theorem collapseAux_mem : ∀ (l : List Char) (b : Bool) (c : Char),
    c ∈ collapseAux b l → c ∈ l ∨ c = ' ' := by
  intro l
  induction l with
  | nil => intro b c h; cases b <;> simp [collapseAux] at h
  | cons d t ih =>
    intro b c h
    cases b with
    | true =>
      simp only [collapseAux] at h
      by_cases hws : isWs d = true
      · rw [if_pos hws] at h
        rcases ih true c h with h2 | h2
        · exact Or.inl (List.mem_cons_of_mem d h2)
        · exact Or.inr h2
      · rw [if_neg hws] at h
        rcases List.mem_cons.mp h with h1 | h1
        · exact Or.inl (h1 ▸ List.mem_cons_self d t)
        · rcases ih false c h1 with h2 | h2
          · exact Or.inl (List.mem_cons_of_mem d h2)
          · exact Or.inr h2
    | false =>
      simp only [collapseAux] at h
      by_cases hws : isWs d = true
      · rw [if_pos hws] at h
        rcases List.mem_cons.mp h with h1 | h1
        · exact Or.inr h1
        · rcases ih true c h1 with h2 | h2
          · exact Or.inl (List.mem_cons_of_mem d h2)
          · exact Or.inr h2
      · rw [if_neg hws] at h
        rcases List.mem_cons.mp h with h1 | h1
        · exact Or.inl (h1 ▸ List.mem_cons_self d t)
        · rcases ih false c h1 with h2 | h2
          · exact Or.inl (List.mem_cons_of_mem d h2)
          · exact Or.inr h2

theorem collapseAux_ws_space : ∀ (l : List Char) (b : Bool) (c : Char),
    c ∈ collapseAux b l → isWs c = true → c = ' ' := by
  intro l
  induction l with
  | nil => intro b c h; cases b <;> simp [collapseAux] at h
  | cons d t ih =>
    intro b c h hc
    cases b with
    | true =>
      simp only [collapseAux] at h
      by_cases hws : isWs d = true
      · rw [if_pos hws] at h
        exact ih true c h hc
      · rw [if_neg hws] at h
        rcases List.mem_cons.mp h with h1 | h1
        · subst h1; rw [hc] at hws; exact absurd rfl hws
        · exact ih false c h1 hc
    | false =>
      simp only [collapseAux] at h
      by_cases hws : isWs d = true
      · rw [if_pos hws] at h
        rcases List.mem_cons.mp h with h1 | h1
        · exact h1
        · exact ih true c h1 hc
      · rw [if_neg hws] at h
        rcases List.mem_cons.mp h with h1 | h1
        · subst h1; rw [hc] at hws; exact absurd rfl hws
        · exact ih false c h1 hc

theorem headNotWs_collapseAux_true : ∀ l : List Char,
    headNotWs (collapseAux true l) = true := by
  intro l
  induction l with
  | nil => rfl
  | cons d t ih =>
    simp only [collapseAux]
    by_cases hws : isWs d = true
    · rw [if_pos hws]; exact ih
    · rw [if_neg hws]
      simp [headNotWs, notWsOpt, hws]

theorem cleanLine_tail : ∀ (c : Char) (t : List Char),
    cleanLine (c :: t) = true → cleanLine t = true := by
  intro c t h
  cases t with
  | nil => rfl
  | cons d t' =>
    simp only [cleanLine, Bool.and_eq_true] at h
    exact h.2

theorem cleanLine_cons : ∀ (c : Char) (r : List Char),
    cleanLine r = true → (isWs c = false ∨ (c = ' ' ∧ headNotWs r = true)) →
    cleanLine (c :: r) = true := by
  intro c r hr hc
  cases r with
  | nil =>
    rcases hc with h | h
    · simp [cleanLine, h]
    · simp [cleanLine, h.1]
  | cons d t' =>
    simp only [cleanLine, Bool.and_eq_true]
    refine ⟨?_, hr⟩
    rcases hc with h | h
    · simp [h]
    · have hd : isWs d = false := by
        have h2 := h.2
        simpa [headNotWs, notWsOpt] using h2
      simp [h.1, hd]

theorem cleanLine_collapseAux : ∀ (l : List Char) (b : Bool),
    cleanLine (collapseAux b l) = true := by
  intro l
  induction l with
  | nil => intro b; cases b <;> rfl
  | cons d t ih =>
    intro b
    cases b with
    | true =>
      simp only [collapseAux]
      by_cases hws : isWs d = true
      · rw [if_pos hws]; exact ih true
      · rw [if_neg hws]
        exact cleanLine_cons d _ (ih false) (Or.inl (by simpa using hws))
    | false =>
      simp only [collapseAux]
      by_cases hws : isWs d = true
      · rw [if_pos hws]
        exact cleanLine_cons ' ' _ (ih true)
          (Or.inr ⟨rfl, headNotWs_collapseAux_true t⟩)
      · rw [if_neg hws]
        exact cleanLine_cons d _ (ih false) (Or.inl (by simpa using hws))

theorem collapseAux_id_of_clean : ∀ l : List Char, cleanLine l = true →
    collapseAux false l = l ∧ (headNotWs l = true → collapseAux true l = l) := by
  intro l
  induction l with
  | nil => exact fun _ => ⟨rfl, fun _ => rfl⟩
  | cons c t ih =>
    intro h
    have ht := cleanLine_tail c t h
    by_cases hws : isWs c = true
    · have hsp : c = ' ' := by
        cases t with
        | nil =>
          simp only [cleanLine, Bool.or_eq_true, Bool.not_eq_true',
            beq_iff_eq] at h
          rcases h with h1 | h1
          · rw [hws] at h1; exact absurd h1 (by decide)
          · exact h1
        | cons d t' =>
          simp only [cleanLine, Bool.and_eq_true, Bool.or_eq_true,
            Bool.not_eq_true', beq_iff_eq] at h
          rcases h.1 with h1 | h1
          · rw [hws] at h1; exact absurd h1 (by decide)
          · exact h1.1
      have htt : collapseAux true t = t := by
        cases t with
        | nil => rfl
        | cons d t' =>
          have hd : isWs d = false := by
            simp only [cleanLine, Bool.and_eq_true, Bool.or_eq_true,
              Bool.not_eq_true', beq_iff_eq] at h
            rcases h.1 with h1 | h1
            · rw [hws] at h1; exact absurd h1 (by decide)
            · exact h1.2
          exact (ih ht).2 (by simp [headNotWs, notWsOpt, hd])
      constructor
      · simp only [collapseAux]
        rw [if_pos hws, htt, hsp]
      · intro hh
        simp [headNotWs, notWsOpt, hws] at hh
    · constructor
      · simp only [collapseAux]
        rw [if_neg hws, (ih ht).1]
      · intro _
        simp only [collapseAux]
        rw [if_neg hws, (ih ht).1]

theorem getLast?_cons_ne : ∀ (a : Char) (l : List Char), l ≠ [] →
    (a :: l).getLast? = l.getLast? := by
  intro a l h
  cases l with
  | nil => exact absurd rfl h
  | cons b t => exact List.getLast?_cons_cons

theorem collapseAux_ne_nil_last : ∀ (l : List Char) (b : Bool), l ≠ [] →
    lastNotWs l = true →
    collapseAux b l ≠ [] ∧ lastNotWs (collapseAux b l) = true := by
  intro l
  induction l with
  | nil => intro b h _; exact absurd rfl h
  | cons c t ih =>
    intro b _ hlast
    cases t with
    | nil =>
      have hc : isWs c = false := by
        simpa [lastNotWs, notWsOpt] using hlast
      have hc' : ¬ isWs c = true := by simp [hc]
      cases b with
      | true =>
        rw [collapseAux_cons_true, if_neg hc']
        exact ⟨by simp, by simp [lastNotWs, notWsOpt, collapseAux, hc]⟩
      | false =>
        rw [collapseAux_cons_false, if_neg hc']
        exact ⟨by simp, by simp [lastNotWs, notWsOpt, collapseAux, hc]⟩
    | cons d t' =>
      have hlast' : lastNotWs (d :: t') = true := by
        unfold lastNotWs at hlast ⊢
        rw [List.getLast?_cons_cons] at hlast
        exact hlast
      by_cases hws : isWs c = true
      · cases b with
        | true =>
          rw [collapseAux_cons_true, if_pos hws]
          exact ih true (by simp) hlast'
        | false =>
          rw [collapseAux_cons_false, if_pos hws]
          have ihx := ih true (by simp) hlast'
          refine ⟨by simp, ?_⟩
          unfold lastNotWs
          rw [getLast?_cons_ne ' ' _ ihx.1]
          exact ihx.2
      · cases b with
        | true =>
          rw [collapseAux_cons_true, if_neg hws]
          have ihx := ih false (by simp) hlast'
          refine ⟨by simp, ?_⟩
          unfold lastNotWs
          rw [getLast?_cons_ne c _ ihx.1]
          exact ihx.2
        | false =>
          rw [collapseAux_cons_false, if_neg hws]
          have ihx := ih false (by simp) hlast'
          refine ⟨by simp, ?_⟩
          unfold lastNotWs
          rw [getLast?_cons_ne c _ ihx.1]
          exact ihx.2

theorem dropWhile_id_of_headNotWs : ∀ l : List Char,
    headNotWs l = true → l.dropWhile isWs = l := by
  intro l h
  cases l with
  | nil => rfl
  | cons c t =>
    have hc : isWs c = false := by simpa [headNotWs, notWsOpt] using h
    simp [List.dropWhile_cons, hc]

theorem stripL_id_of : ∀ l : List Char,
    headNotWs l = true → lastNotWs l = true → stripL l = l := by
  intro l h1 h2
  unfold stripL
  rw [dropWhile_id_of_headNotWs l h1]
  have h2' : headNotWs l.reverse = true := by
    unfold headNotWs
    rw [List.head?_reverse]
    exact h2
  rw [dropWhile_id_of_headNotWs l.reverse h2', List.reverse_reverse]

theorem headNotWs_dropWhile : ∀ l : List Char, headNotWs (l.dropWhile isWs) = true := by
  intro l
  induction l with
  | nil => rfl
  | cons c t ih =>
    by_cases hc : isWs c = true
    · simp [List.dropWhile_cons, hc, ih]
    · simp [List.dropWhile_cons, hc, headNotWs, notWsOpt]

theorem getLast?_dropWhile : ∀ l : List Char, l.dropWhile isWs ≠ [] →
    (l.dropWhile isWs).getLast? = l.getLast? := by
  intro l
  induction l with
  | nil => intro h; exact absurd rfl h
  | cons c t ih =>
    intro h
    by_cases hc : isWs c = true
    · rw [List.dropWhile_cons, if_pos hc] at h ⊢
      have ht : t ≠ [] := by
        intro he; subst he; simp [List.dropWhile] at h
      rw [ih h, getLast?_cons_ne c t ht]
    · rw [List.dropWhile_cons, if_neg hc]

theorem stripL_ends : ∀ l : List Char, stripL l ≠ [] →
    headNotWs (stripL l) = true ∧ lastNotWs (stripL l) = true := by
  intro l hne
  have hBne : (l.dropWhile isWs).reverse.dropWhile isWs ≠ [] := by
    intro h
    apply hne
    unfold stripL
    rw [h]
    rfl
  constructor
  · unfold headNotWs stripL
    rw [List.head?_reverse, getLast?_dropWhile _ hBne, List.getLast?_reverse]
    have h2 := headNotWs_dropWhile l
    unfold headNotWs at h2
    exact h2
  · unfold lastNotWs stripL
    rw [List.getLast?_reverse]
    have h2 := headNotWs_dropWhile (l.dropWhile isWs).reverse
    unfold headNotWs at h2
    exact h2

theorem stripL_nil : stripL [] = [] := rfl

theorem splitlines_other (c : Char) (t : List Char) (h1 : ¬ c = '\r')
    (h2 : ¬ c = '\n') :
    splitlines (c :: t) =
      match splitlines t with
      | [] => [[c]]
      | l :: ls => (c :: l) :: ls := by
  cases t with
  | nil => rw [splitlines.eq_3, if_neg h1, if_neg h2]
  | cons d t3 =>
    by_cases hd : d = '\n'
    · subst hd
      rw [splitlines.eq_2, if_neg h1, if_neg h2]
    · rw [splitlines.eq_4 c d t3 (fun h => hd h), if_neg h1, if_neg h2]

theorem splitlines_newline : ∀ t : List Char,
    splitlines ('\n' :: t) = [] :: splitlines t := by
  intro t
  cases t with
  | nil => rw [splitlines.eq_3, if_neg (by decide), if_pos rfl]
  | cons d t3 =>
    by_cases hd : d = '\n'
    · subst hd
      rw [splitlines.eq_2, if_neg (by decide), if_pos rfl]
    · rw [splitlines.eq_4 '\n' d t3 (fun h => hd h), if_neg (by decide), if_pos rfl]

theorem splitlines_crlf (t : List Char) :
    splitlines ('\r' :: '\n' :: t) = [] :: splitlines t := by
  rw [splitlines.eq_2, if_pos rfl]

theorem splitlines_cr (d : Char) (t3 : List Char) (hd : ¬ d = '\n') :
    splitlines ('\r' :: d :: t3) = [] :: splitlines (d :: t3) := by
  rw [splitlines.eq_4 '\r' d t3 (fun h => hd h), if_pos rfl]

theorem splitlines_cr_single : splitlines ['\r'] = [[]] := by
  rw [splitlines.eq_3, if_pos rfl]

theorem splitlines_no_terminator : ∀ l : List Char, '\n' ∉ l → '\r' ∉ l →
    splitlines l = if l = [] then [] else [l] := by
  intro l
  induction l with
  | nil => intro _ _; rfl
  | cons c t ih =>
    intro h1 h2
    have hc1 : ¬ c = '\n' := fun h => h1 (h ▸ List.mem_cons_self c t)
    have hc2 : ¬ c = '\r' := fun h => h2 (h ▸ List.mem_cons_self c t)
    have ht1 : '\n' ∉ t := fun h => h1 (List.mem_cons_of_mem c h)
    have ht2 : '\r' ∉ t := fun h => h2 (List.mem_cons_of_mem c h)
    by_cases ht : t = []
    · subst ht
      rw [splitlines_other c [] hc2 hc1]
      simp [splitlines]
    · rw [splitlines_other c t hc2 hc1, ih ht1 ht2, if_neg ht]
      simp [ht]

theorem splitlines_append_newline : ∀ (a r : List Char), '\n' ∉ a → '\r' ∉ a →
    splitlines (a ++ '\n' :: r) = a :: splitlines r := by
  intro a
  induction a with
  | nil => intro r _ _; exact splitlines_newline r
  | cons c a' ih =>
    intro r h1 h2
    have hc1 : ¬ c = '\n' := fun h => h1 (h ▸ List.mem_cons_self c a')
    have hc2 : ¬ c = '\r' := fun h => h2 (h ▸ List.mem_cons_self c a')
    have ht1 : '\n' ∉ a' := fun h => h1 (List.mem_cons_of_mem c h)
    have ht2 : '\r' ∉ a' := fun h => h2 (List.mem_cons_of_mem c h)
    rw [List.cons_append, splitlines_other c _ hc2 hc1, ih r ht1 ht2]

theorem splitlines_joinPar : ∀ ts : List (List Char),
    (∀ t ∈ ts, t ≠ [] ∧ '\n' ∉ t ∧ '\r' ∉ t) →
    splitlines (joinPar ts) = sepList ts := by
  intro ts
  induction ts with
  | nil => intro _; rfl
  | cons t ts' ih =>
    intro h
    have hhd := h t (List.mem_cons_self t ts')
    cases ts' with
    | nil =>
      show splitlines (joinPar [t]) = sepList [t]
      rw [show joinPar [t] = t from rfl, show sepList [t] = [t] from rfl]
      rw [splitlines_no_terminator t hhd.2.1 hhd.2.2, if_neg hhd.1]
    | cons t2 ts'' =>
      have hrest : ∀ u ∈ t2 :: ts'', u ≠ [] ∧ '\n' ∉ u ∧ '\r' ∉ u :=
        fun u hu => h u (List.mem_cons_of_mem t hu)
      show splitlines (t ++ '\n' :: '\n' :: joinPar (t2 :: ts'')) =
        t :: [] :: sepList (t2 :: ts'')
      rw [splitlines_append_newline t _ hhd.2.1 hhd.2.2]
      rw [splitlines_newline, ih hrest]

theorem processLines_sepList : ∀ ts : List (List Char),
    (∀ t ∈ ts, stripL t = t ∧ collapseWs t = t ∧ t ≠ []) →
    processLines (sepList ts) = ts := by
  intro ts
  induction ts with
  | nil => intro _; rfl
  | cons t ts' ih =>
    intro h
    have hhd := h t (List.mem_cons_self t ts')
    cases ts' with
    | nil =>
      show processLines [t] = [t]
      simp only [processLines]
      rw [hhd.1, if_neg hhd.2.2, hhd.2.1]
    | cons t2 ts'' =>
      have hrest : ∀ u ∈ t2 :: ts'', stripL u = u ∧ collapseWs u = u ∧ u ≠ [] :=
        fun u hu => h u (List.mem_cons_of_mem t hu)
      show processLines (t :: [] :: sepList (t2 :: ts'')) = t :: t2 :: ts''
      simp only [processLines]
      rw [hhd.1, if_neg hhd.2.2, hhd.2.1, stripL_nil, if_pos rfl, ih hrest]

theorem processLines_mem : ∀ (ls : List (List Char)) (t : List Char),
    t ∈ processLines ls →
    ∃ line, line ∈ ls ∧ stripL line ≠ [] ∧ t = collapseWs (stripL line) := by
  intro ls
  induction ls with
  | nil => intro t h; simp [processLines] at h
  | cons line ls' ih =>
    intro t h
    simp only [processLines] at h
    by_cases hs : stripL line = []
    · rw [if_pos hs] at h
      obtain ⟨l2, hl2, hrest⟩ := ih t h
      exact ⟨l2, List.mem_cons_of_mem line hl2, hrest⟩
    · rw [if_neg hs] at h
      rcases List.mem_cons.mp h with h1 | h1
      · exact ⟨line, List.mem_cons_self line ls', hs, h1⟩
      · obtain ⟨l2, hl2, hrest⟩ := ih t h1
        exact ⟨l2, List.mem_cons_of_mem line hl2, hrest⟩

theorem mem_stripL : ∀ (l : List Char) (c : Char), c ∈ stripL l → c ∈ l := by
  intro l c h
  unfold stripL at h
  rw [List.mem_reverse] at h
  have hsub : List.Sublist ((l.dropWhile isWs).reverse.dropWhile isWs)
      (l.dropWhile isWs).reverse := List.dropWhile_sublist isWs
  have h2 := hsub.subset h
  rw [List.mem_reverse] at h2
  exact (List.dropWhile_sublist isWs).subset h2

theorem mem_splitlines_aux : ∀ (n : Nat) (l : List Char), l.length ≤ n →
    ∀ line ∈ splitlines l, ∀ c ∈ line, c ∈ l := by
  intro n
  induction n with
  | zero =>
    intro l hl line hline c _
    have hnil : l = [] := List.eq_nil_of_length_eq_zero (Nat.le_zero.mp hl)
    subst hnil
    simp [splitlines] at hline
  | succ n ih =>
    intro l hl line hline c hc
    cases l with
    | nil => simp [splitlines] at hline
    | cons c0 t =>
      by_cases hr : c0 = '\r'
      · subst hr
        cases t with
        | nil =>
          rw [splitlines_cr_single] at hline
          simp at hline
          subst hline
          simp at hc
        | cons d t3 =>
          by_cases hd : d = '\n'
          · subst hd
            rw [splitlines_crlf t3] at hline
            rcases List.mem_cons.mp hline with h1 | h1
            · subst h1; simp at hc
            · have hm := ih t3 (by simp at hl ⊢; omega) line h1 c hc
              exact List.mem_cons_of_mem _ (List.mem_cons_of_mem _ hm)
          · rw [splitlines_cr d t3 hd] at hline
            rcases List.mem_cons.mp hline with h1 | h1
            · subst h1; simp at hc
            · have hm := ih (d :: t3) (by simp at hl ⊢; omega) line h1 c hc
              exact List.mem_cons_of_mem _ hm
      · by_cases hn : c0 = '\n'
        · subst hn
          rw [splitlines_newline t] at hline
          rcases List.mem_cons.mp hline with h1 | h1
          · subst h1; simp at hc
          · exact List.mem_cons_of_mem _ (ih t (by simp at hl ⊢; omega) line h1 c hc)
        · rw [splitlines_other c0 t hr hn] at hline
          cases hst : splitlines t with
          | nil =>
            rw [hst] at hline
            rw [List.mem_singleton] at hline
            subst hline
            rw [List.mem_singleton] at hc
            exact hc ▸ List.mem_cons_self c0 t
          | cons l1 ls1 =>
            rw [hst] at hline
            rcases List.mem_cons.mp hline with h1 | h1
            · subst h1
              rcases List.mem_cons.mp hc with h2 | h2
              · exact h2 ▸ List.mem_cons_self c0 t
              · have hl1 : l1 ∈ splitlines t := by
                  rw [hst]; exact List.mem_cons_self l1 ls1
                exact List.mem_cons_of_mem c0
                  (ih t (by simp at hl ⊢; omega) l1 hl1 c h2)
            · have hmem : line ∈ splitlines t := by
                rw [hst]; exact List.mem_cons_of_mem l1 h1
              exact List.mem_cons_of_mem c0
                (ih t (by simp at hl ⊢; omega) line hmem c hc)

theorem mem_splitlines : ∀ (l line : List Char), line ∈ splitlines l →
    ∀ c ∈ line, c ∈ l :=
  fun l => mem_splitlines_aux l.length l (Nat.le_refl _)

theorem mem_joinPar : ∀ (ts : List (List Char)) (c : Char), c ∈ joinPar ts →
    (∃ t ∈ ts, c ∈ t) ∨ c = '\n' := by
  intro ts
  induction ts with
  | nil => intro c h; simp [joinPar] at h
  | cons t ts' ih =>
    intro c h
    cases ts' with
    | nil => exact Or.inl ⟨t, List.mem_cons_self t [], h⟩
    | cons t2 ts'' =>
      rw [show joinPar (t :: t2 :: ts'') = t ++ '\n' :: '\n' :: joinPar (t2 :: ts'')
        from rfl, List.mem_append] at h
      rcases h with h1 | h1
      · exact Or.inl ⟨t, List.mem_cons_self _ _, h1⟩
      · rcases List.mem_cons.mp h1 with h2 | h2
        · exact Or.inr h2
        · rcases List.mem_cons.mp h2 with h3 | h3
          · exact Or.inr h3
          · rcases ih c h3 with ⟨u, hu, hcu⟩ | h4
            · exact Or.inl ⟨u, List.mem_cons_of_mem t hu, hcu⟩
            · exact Or.inr h4

theorem emMatch_none : ∀ (c : Char) (t : List Char), ¬ c = '<' →
    emMatch (c :: t) = none := by
  intro c t hc
  rcases t with _ | ⟨c2, _ | ⟨c3, _ | ⟨c4, r⟩⟩⟩ <;> simp [emMatch, hc]

theorem regexEmGo_id : ∀ (k : Nat) (l : List Char), '<' ∉ l → regexEmGo k l = l := by
  intro k
  induction k with
  | zero => intro l _; rfl
  | succ n ih =>
    intro l hl
    cases l with
    | nil => rfl
    | cons c t =>
      have hc : ¬ c = '<' := fun h => hl (h ▸ List.mem_cons_self c t)
      have ht : '<' ∉ t := fun h => hl (List.mem_cons_of_mem c h)
      simp only [regexEmGo, emMatch_none c t hc]
      rw [ih t ht]

theorem regexEmSub_id : ∀ l : List Char, '<' ∉ l → regexEmSub l = l :=
  fun l h => regexEmGo_id l.length l h

theorem collapseWs_ne_nil : ∀ l : List Char, l ≠ [] → collapseWs l ≠ [] := by
  intro l h
  cases l with
  | nil => exact absurd rfl h
  | cons c t =>
    unfold collapseWs
    rw [collapseAux_cons_false]
    by_cases hc : isWs c = true
    · rw [if_pos hc]; simp
    · rw [if_neg hc]; simp

theorem processed_line_props : ∀ (raw t : List Char),
    t ∈ processLines (splitlines raw) →
    t ≠ [] ∧ stripL t = t ∧ collapseWs t = t ∧ '\n' ∉ t ∧ '\r' ∉ t := by
  intro raw t ht
  obtain ⟨line, _, hsne, hteq⟩ := processLines_mem _ t ht
  subst hteq
  have hne : collapseWs (stripL line) ≠ [] := collapseWs_ne_nil _ hsne
  have hends := stripL_ends line hsne
  have hhead : headNotWs (collapseWs (stripL line)) = true := by
    cases hs : stripL line with
    | nil => exact absurd hs hsne
    | cons c s' =>
      have hcs : isWs c = false := by
        have h1 := hends.1
        rw [hs] at h1
        simpa [headNotWs, notWsOpt] using h1
      unfold collapseWs
      rw [collapseAux_cons_false, if_neg (by simp [hcs])]
      simp [headNotWs, notWsOpt, hcs]
  have hlastp := collapseAux_ne_nil_last (stripL line) false hsne hends.2
  have hstrip : stripL (collapseWs (stripL line)) = collapseWs (stripL line) :=
    stripL_id_of _ hhead hlastp.2
  have hcoll : collapseWs (collapseWs (stripL line)) = collapseWs (stripL line) :=
    (collapseAux_id_of_clean _ (cleanLine_collapseAux (stripL line) false)).1
  refine ⟨hne, hstrip, hcoll, ?_, ?_⟩
  · intro hmem
    have h2 := collapseAux_ws_space (stripL line) false '\n' hmem (by decide)
    exact absurd h2 (by decide)
  · intro hmem
    have h2 := collapseAux_ws_space (stripL line) false '\r' hmem (by decide)
    exact absurd h2 (by decide)

theorem no_lt_clean_output : ∀ raw : List Char, '<' ∉ raw →
    '<' ∉ joinPar (processLines (splitlines raw)) := by
  intro raw hraw hmem
  rcases mem_joinPar _ '<' hmem with ⟨t, ht, hct⟩ | habs
  · obtain ⟨line, hline, _, hteq⟩ := processLines_mem _ t ht
    subst hteq
    rcases collapseAux_mem _ false '<' hct with h1 | h1
    · exact hraw (mem_splitlines raw line hline '<' (mem_stripL line '<' h1))
    · exact absurd h1 (by decide)
  · exact absurd habs (by decide)

theorem joinPar_ne_nil : ∀ (t : List Char) (ts : List (List Char)), t ≠ [] →
    joinPar (t :: ts) ≠ [] := by
  intro t ts h
  cases ts with
  | nil => exact h
  | cons t2 ts' =>
    rw [show joinPar (t :: t2 :: ts') = t ++ '\n' :: '\n' :: joinPar (t2 :: ts')
      from rfl]
    simp

theorem clean_html_empty (g : String → Except String String) :
    clean_html g "" = "" := by
  simp [clean_html]

theorem clean_html_ok (g : String → Except String String) (s raw : String)
    (hs : ¬ s = "") (h : g ⟨regexEmSub s.data⟩ = .ok raw) :
    clean_html g s = ⟨joinPar (processLines (splitlines raw.data))⟩ := by
  simp only [clean_html]
  rw [if_neg hs, h]

theorem skipTagBody_length : ∀ l : List Char, (skipTagBody l).length ≤ l.length := by
  intro l
  induction l with
  | nil => simp [skipTagBody]
  | cons c t ih =>
    simp only [skipTagBody, List.length_cons]
    split
    · omega
    · omega

theorem stripTagsGo_no_lt : ∀ (k : Nat) (l : List Char), l.length ≤ k →
    '<' ∉ stripTagsGo k l := by
  intro k
  induction k with
  | zero =>
    intro l hl
    have hnil : l = [] := List.eq_nil_of_length_eq_zero (Nat.le_zero.mp hl)
    subst hnil
    simp [stripTagsGo]
  | succ n ih =>
    intro l hl
    cases l with
    | nil => simp [stripTagsGo]
    | cons c t =>
      simp only [stripTagsGo]
      by_cases hc : c = '<'
      · rw [if_pos hc]
        refine ih (skipTagBody t) ?_
        have h2 := skipTagBody_length t
        simp at hl
        omega
      · rw [if_neg hc]
        intro hmem
        rcases List.mem_cons.mp hmem with h1 | h1
        · exact hc h1.symm
        · exact ih t (by simp at hl; omega) h1

theorem stripTags_no_lt : ∀ l : List Char, '<' ∉ stripTags l :=
  fun l => stripTagsGo_no_lt l.length l (Nat.le_refl _)

theorem stripTagsGo_id : ∀ (k : Nat) (l : List Char), '<' ∉ l →
    stripTagsGo k l = l := by
  intro k
  induction k with
  | zero => intro l _; rfl
  | succ n ih =>
    intro l hl
    cases l with
    | nil => rfl
    | cons c t =>
      have hc : ¬ c = '<' := fun h => hl (h ▸ List.mem_cons_self c t)
      simp only [stripTagsGo]
      rw [if_neg hc, ih t (fun h => hl (List.mem_cons_of_mem c h))]

theorem extractDemo_total : ∀ s : String, ∃ r : String, extractDemo s = .ok r :=
  fun s => ⟨⟨stripTags s.data⟩, rfl⟩

theorem extractDemo_no_lt : ∀ s r : String, extractDemo s = .ok r → '<' ∉ r.data := by
  intro s r h
  injection h with h1
  rw [← h1]
  exact stripTags_no_lt s.data

theorem extractDemo_id : ∀ s : String, '<' ∉ s.data → extractDemo s = .ok s := by
  intro s h
  unfold extractDemo stripTags
  rw [stripTagsGo_id s.data.length s.data h]

/-- C8: the sanitizer is idempotent, `clean_html g (clean_html g x) =
clean_html g x` for every input `x`, for every HTML-to-text capability `g`
satisfying the tag-soup extraction contract of the spec (sections 4.2 and
9): it is total (tolerant parsing never fails), its output is markup-free
(contains no `<`), and on markup-free input the whitespace-preserving
extraction is the identity.  The concrete stripper `extractDemo` satisfies
all three, giving the witness. -/
theorem c8_sanitize_idempotent :
    ∀ g : String → Except String String,
      (∀ s : String, ∃ r : String, g s = .ok r) →
      (∀ s r : String, g s = .ok r → '<' ∉ r.data) →
      (∀ s : String, '<' ∉ s.data → g s = .ok s) →
      ∀ x : String, clean_html g (clean_html g x) = clean_html g x := by
  intro g hTot hNoLt hId x
  by_cases hx : x = ""
  · subst hx
    rw [clean_html_empty g, clean_html_empty g]
  · obtain ⟨raw, hraw⟩ := hTot ⟨regexEmSub x.data⟩
    have h1 : clean_html g x = ⟨joinPar (processLines (splitlines raw.data))⟩ :=
      clean_html_ok g x raw hx hraw
    have hrawlt : '<' ∉ raw.data := hNoLt _ _ hraw
    rw [h1]
    cases hts : processLines (splitlines raw.data) with
    | nil =>
      rw [show (⟨joinPar []⟩ : String) = "" from rfl]
      exact clean_html_empty g
    | cons t0 ts' =>
      have hprops : ∀ t ∈ t0 :: ts',
          t ≠ [] ∧ stripL t = t ∧ collapseWs t = t ∧ '\n' ∉ t ∧ '\r' ∉ t := by
        intro t ht
        apply processed_line_props raw.data t
        rw [hts]
        exact ht
      have hynil : joinPar (t0 :: ts') ≠ [] :=
        joinPar_ne_nil t0 ts' (hprops t0 (List.mem_cons_self _ _)).1
      have hyne : (⟨joinPar (t0 :: ts')⟩ : String) ≠ "" := by
        intro he
        exact hynil (congrArg String.data he)
      have hylt : '<' ∉ joinPar (t0 :: ts') := by
        have h3 := no_lt_clean_output raw.data hrawlt
        rw [hts] at h3
        exact h3
      have hgid : g ⟨joinPar (t0 :: ts')⟩ = .ok ⟨joinPar (t0 :: ts')⟩ :=
        hId _ hylt
      have hkey : (⟨regexEmSub (String.data ⟨joinPar (t0 :: ts')⟩)⟩ : String) =
          ⟨joinPar (t0 :: ts')⟩ :=
        congrArg String.mk (regexEmSub_id _ hylt)
      have hg2 : g ⟨regexEmSub (String.data ⟨joinPar (t0 :: ts')⟩)⟩ =
          .ok ⟨joinPar (t0 :: ts')⟩ := by
        rw [hkey]
        exact hgid
      have h5 : clean_html g ⟨joinPar (t0 :: ts')⟩ =
          ⟨joinPar (processLines (splitlines (String.data ⟨joinPar (t0 :: ts')⟩)))⟩ :=
        clean_html_ok g _ _ hyne hg2
      rw [h5]
      have hsplit : splitlines (joinPar (t0 :: ts')) = sepList (t0 :: ts') :=
        splitlines_joinPar (t0 :: ts')
          (fun t ht => ⟨(hprops t ht).1, (hprops t ht).2.2.2.1, (hprops t ht).2.2.2.2⟩)
      have hproc : processLines (sepList (t0 :: ts')) = t0 :: ts' :=
        processLines_sepList (t0 :: ts')
          (fun t ht => ⟨(hprops t ht).2.1, (hprops t ht).2.2.1, (hprops t ht).1⟩)
      rw [show String.data (⟨joinPar (t0 :: ts')⟩ : String) = joinPar (t0 :: ts')
        from rfl, hsplit, hproc]

/-- C8 witness: idempotence at the concrete input
`"<p>Hello  <em>world</em></p>"` under the concrete tag stripper (both
sides evaluate to `"Hello world"`). -/
theorem c8_sanitize_idempotent_witness :
    clean_html extractDemo (clean_html extractDemo "<p>Hello  <em>world</em></p>") =
      clean_html extractDemo "<p>Hello  <em>world</em></p>" :=
  c8_sanitize_idempotent extractDemo extractDemo_total extractDemo_no_lt
    extractDemo_id "<p>Hello  <em>world</em></p>"

end NeuroFeed
